import Mathlib

/-!
# Verification of `simple_aes256_gcm`

A shallow embedding of `src/simple_aes256_gcm.rs`: the base64 value types
(`Key`, `Iv`, `Encrypted`, `Decrypted`) and the `encrypt` / `decrypt`
operations, together with proofs of the specification's claims.

Strings are modelled at the byte level: a Rust `&str` is a list of Unicode
scalar values (`List Nat` satisfying `ScalarValue`), its `as_bytes()` view is
`utf8Encode`, and `String::from_utf8` is `utf8Decode`.  Bytes are `Nat`s
below 256.  The external `base64` crate's `encode` / `decode` (standard
alphabet, canonical padding, trailing bits rejected) are embedded as
`base64Encode` / `base64Decode` over lists of character codes.
-/

namespace SimpleAes256Gcm

deriving instance DecidableEq for Except

/-- Sextet value of a standard-base64 alphabet character code
(`A`-`Z`, `a`-`z`, `0`-`9`, `+`, `/`); `none` for any other character. -/
def sextetOfChar (c : Nat) : Option Nat :=
  if 65 ≤ c ∧ c ≤ 90 then some (c - 65)
  else if 97 ≤ c ∧ c ≤ 122 then some (c - 97 + 26)
  else if 48 ≤ c ∧ c ≤ 57 then some (c - 48 + 52)
  else if c = 43 then some 62
  else if c = 47 then some 63
  else none

/-- Character code of a sextet (inverse of `sextetOfChar` below 64). -/
def charOfSextet (s : Nat) : Nat :=
  if s < 26 then 65 + s
  else if s < 52 then 97 + (s - 26)
  else if s < 62 then 48 + (s - 52)
  else if s = 62 then 43
  else 47

/-- Standard base64 encoding with canonical `=` padding (character code 61),
as produced by the `base64` crate's `encode`.  Input bytes, output character
codes. -/
def base64Encode : List Nat → List Nat
  | b0 :: b1 :: b2 :: rest =>
      charOfSextet (b0 / 4) :: charOfSextet (b0 % 4 * 16 + b1 / 16) ::
        charOfSextet (b1 % 16 * 4 + b2 / 64) :: charOfSextet (b2 % 64) ::
        base64Encode rest
  | [b0, b1] =>
      [charOfSextet (b0 / 4), charOfSextet (b0 % 4 * 16 + b1 / 16),
        charOfSextet (b1 % 16 * 4), 61]
  | [b0] => [charOfSextet (b0 / 4), charOfSextet (b0 % 4 * 16), 61, 61]
  | [] => []

/-- Standard base64 decoding as performed by the `base64` crate's `decode`
(v0.13, standard config): four-character quanta, `=` padding permitted only
at the very end to complete the final quantum, a final quantum of two or
three characters accepted unpadded, a quantum of one character rejected, and
non-zero trailing bits in the last symbol rejected. -/
def base64Decode : List Nat → Option (List Nat)
  | c0 :: c1 :: c2 :: c3 :: rest =>
      match sextetOfChar c0, sextetOfChar c1 with
      | some s0, some s1 =>
          if c2 = 61 then
            if c3 = 61 ∧ rest = [] ∧ s1 % 16 = 0 then
              some [s0 * 4 + s1 / 16]
            else none
          else
            match sextetOfChar c2 with
            | some s2 =>
                if c3 = 61 then
                  if rest = [] ∧ s2 % 4 = 0 then
                    some [s0 * 4 + s1 / 16, s1 % 16 * 16 + s2 / 4]
                  else none
                else
                  match sextetOfChar c3, base64Decode rest with
                  | some s3, some tail =>
                      some ((s0 * 4 + s1 / 16) :: (s1 % 16 * 16 + s2 / 4) ::
                        (s2 % 4 * 64 + s3) :: tail)
                  | _, _ => none
            | none => none
      | _, _ => none
  | [c0, c1] =>
      match sextetOfChar c0, sextetOfChar c1 with
      | some s0, some s1 =>
          if s1 % 16 = 0 then some [s0 * 4 + s1 / 16] else none
      | _, _ => none
  | [c0, c1, c2] =>
      match sextetOfChar c0, sextetOfChar c1, sextetOfChar c2 with
      | some s0, some s1, some s2 =>
          if s2 % 4 = 0 then some [s0 * 4 + s1 / 16, s1 % 16 * 16 + s2 / 4]
          else none
      | _, _, _ => none
  | [_] => none
  | [] => some []

/-- A Unicode scalar value: below `0x110000` and not a surrogate.  Rust's
`char` / `str` guarantee exactly this for every code point of a string. -/
def ScalarValue (n : Nat) : Prop := n < 1114112 ∧ (n < 55296 ∨ 57343 < n)

instance (n : Nat) : Decidable (ScalarValue n) := by
  unfold ScalarValue
  infer_instance

/-- UTF-8 encoding of one scalar value (Rust `char::encode_utf8`). -/
def utf8EncodeChar (n : Nat) : List Nat :=
  if n < 128 then [n]
  else if n < 2048 then [192 + n / 64, 128 + n % 64]
  else if n < 65536 then [224 + n / 4096, 128 + n / 64 % 64, 128 + n % 64]
  else [240 + n / 262144, 128 + n / 4096 % 64, 128 + n / 64 % 64, 128 + n % 64]

/-- UTF-8 encoding of a string of scalar values (Rust `str::as_bytes`). -/
def utf8Encode : List Nat → List Nat
  | [] => []
  | c :: rest => utf8EncodeChar c ++ utf8Encode rest

/-- One strict UTF-8 decoding step (the leading byte and the bytes after
it): returns the decoded scalar value and the remaining input, rejecting
continuation-byte starts, overlong encodings, surrogates, truncated
sequences, and code points above `0x10FFFF`. -/
def utf8DecodeStep (b : Nat) (rest : List Nat) : Option (Nat × List Nat) :=
  if b < 128 then some (b, rest)
  else if b < 194 then none
  else if b < 224 then
    match rest with
    | b1 :: rest1 =>
        if 128 ≤ b1 ∧ b1 < 192 then some ((b - 192) * 64 + (b1 - 128), rest1)
        else none
    | [] => none
  else if b < 240 then
    match rest with
    | b1 :: b2 :: rest2 =>
        if 128 ≤ b1 ∧ b1 < 192 ∧ 128 ≤ b2 ∧ b2 < 192 ∧
            (b = 224 → 160 ≤ b1) ∧ (b = 237 → b1 < 160) then
          some ((b - 224) * 4096 + (b1 - 128) * 64 + (b2 - 128), rest2)
        else none
    | _ => none
  else if b < 245 then
    match rest with
    | b1 :: b2 :: b3 :: rest3 =>
        if 128 ≤ b1 ∧ b1 < 192 ∧ 128 ≤ b2 ∧ b2 < 192 ∧ 128 ≤ b3 ∧ b3 < 192 ∧
            (b = 240 → 144 ≤ b1) ∧ (b = 244 → b1 < 144) then
          some ((b - 240) * 262144 + (b1 - 128) * 4096 + (b2 - 128) * 64 +
            (b3 - 128), rest3)
        else none
    | _ => none
  else none

/-- Fuel-indexed strict UTF-8 decoding.  The fuel only bounds the number of
decoded characters; `utf8Decode` supplies the input length, which always
suffices because each step consumes at least one byte. -/
def utf8DecodeFuel : Nat → List Nat → Option (List Nat)
  | _, [] => some []
  | 0, _ :: _ => none
  | fuel + 1, b :: rest =>
      match utf8DecodeStep b rest with
      | some (c, rem) => (utf8DecodeFuel fuel rem).map (fun s => c :: s)
      | none => none

/-- Strict UTF-8 decoding and validation (Rust `String::from_utf8`). -/
def utf8Decode (l : List Nat) : Option (List Nat) := utf8DecodeFuel l.length l

/-- Modelled from the spec: mixing function underlying the model of the
external AEAD primitive's tag (the primitive itself, `aes_gcm`'s AES-256-GCM,
is an external collaborator delegated by the repository — spec section 6 —
and is modelled by its interface contract, not reimplemented). -/
def mixList (l : List Nat) : Nat :=
  l.foldl (fun a b => (a * 131 + b % 256 + 1) % 65521) 7

/-- Modelled from the spec: one keystream byte of the modelled AEAD
primitive, determined by key, nonce and position. -/
def keystreamByte (k n : List Nat) (i : Nat) : Nat :=
  (mixList (k ++ n) * 131 + i * 31 + 11) % 256

/-- Modelled from the spec: xor of a buffer against the keystream determined
by key and nonce, starting at position `i`. -/
def xorKs (k n : List Nat) : Nat → List Nat → List Nat
  | _, [] => []
  | i, b :: rest => (b ^^^ keystreamByte k n i) :: xorKs k n (i + 1) rest

/-- Modelled from the spec: the 16-byte authentication tag of the modelled
AEAD primitive (12 nonce-derived bytes plus 4 bytes mixing key and
ciphertext body), appended by `seal` and verified by `open`. -/
def tagBytes (k n body : List Nat) : List Nat :=
  n ++ [mixList k % 256, mixList k / 256 % 256,
    mixList (k ++ body) % 256, mixList (k ++ body) / 256 % 256]

/-- Modelled from the spec: the external AEAD primitive's
`seal(key, nonce, plaintext) -> ciphertext_with_tag` — the ciphertext is the
keystream-masked plaintext with the 16-byte tag appended, so its length is
`plaintext length + 16` for a 12-byte nonce. -/
def gcmSeal (k n p : List Nat) : List Nat :=
  xorKs k n 0 p ++ tagBytes k n (xorKs k n 0 p)

/-- Modelled from the spec: the external AEAD primitive's
`open(key, nonce, ciphertext_with_tag) -> plaintext | AuthenticationError` —
split off the 16-byte tag, recompute it from key, nonce and body, and unmask
the body only on an exact match. -/
def gcmOpen (k n c : List Nat) : Option (List Nat) :=
  if c.length < 16 then none
  else
    if c.drop (c.length - 16) = tagBytes k n (c.take (c.length - 16)) then
      some (xorKs k n 0 (c.take (c.length - 16)))
    else none

/-- The two variants of `InvalidKeyError` in the source. -/
inductive InvalidKeyError
  | InvalidKeySizeError
  | InvalidKeyBase64Error
deriving DecidableEq, Repr

/-- The `Key` struct: a 32-byte AES-256 key. -/
structure Key where
  u8_array : List Nat
deriving DecidableEq, Repr

/-- `TryFrom<&str> for Key`: base64-decode the text, then require exactly 32
decoded bytes. -/
def Key.tryFrom (base64_key : List Nat) : Except InvalidKeyError Key :=
  match base64Decode base64_key with
  | none => .error .InvalidKeyBase64Error
  | some key =>
      if key.length = 32 then .ok ⟨key⟩
      else .error .InvalidKeySizeError

/-- `TryFrom<String> for Key`: delegates to the `&str` conversion on the
full slice of the owned string. -/
def Key.tryFromString (base64_key : List Nat) : Except InvalidKeyError Key :=
  Key.tryFrom base64_key

/-- The two variants of `InvalidIvError` in the source. -/
inductive InvalidIvError
  | InvalidIvSizeError
  | InvalidIvBase64Error
deriving DecidableEq, Repr

/-- The `Iv` struct: a 12-byte AES-GCM nonce. -/
structure Iv where
  u8_array : List Nat
deriving DecidableEq, Repr

/-- `TryFrom<&str> for Iv`: base64-decode the text, then require exactly 12
decoded bytes. -/
def Iv.tryFrom (base64_iv : List Nat) : Except InvalidIvError Iv :=
  match base64Decode base64_iv with
  | none => .error .InvalidIvBase64Error
  | some iv =>
      if iv.length = 12 then .ok ⟨iv⟩
      else .error .InvalidIvSizeError

/-- `Iv::generate`: draw 12 bytes from the process random source, modelled
as a byte oracle `r` read at cursor `pos`; returns the fresh `Iv` and the
advanced cursor. -/
def Iv.generate (r : Nat → Nat) (pos : Nat) : Iv × Nat :=
  (⟨(List.range 12).map (fun j => r (pos + j) % 256)⟩, pos + 12)

/-- `From<&Iv> for String`: base64 rendering of the nonce. -/
def Iv.toBase64 (iv : Iv) : List Nat := base64Encode iv.u8_array

/-- The error type of `Encrypted`'s base64 construction
(`base64::DecodeError` in the source, collapsed to its one role). -/
inductive Base64DecodeError
  | DecodeError
deriving DecidableEq, Repr

/-- The `Encrypted` struct: an opaque ciphertext byte vector. -/
structure Encrypted where
  u8_vec : List Nat
deriving DecidableEq, Repr

/-- `TryFrom<&str> for Encrypted`: base64-decode with no size constraint. -/
def Encrypted.tryFrom (base64_encrypted : List Nat) :
    Except Base64DecodeError Encrypted :=
  match base64Decode base64_encrypted with
  | none => .error .DecodeError
  | some v => .ok ⟨v⟩

/-- `From<&Encrypted> for String`: base64 rendering of the ciphertext. -/
def Encrypted.toBase64 (e : Encrypted) : List Nat := base64Encode e.u8_vec

/-- The `Decrypted` plaintext view: a borrowed string, modelled as its list
of Unicode scalar values. -/
structure Decrypted where
  value : List Nat
deriving DecidableEq, Repr

/-- The `EncryptedAndIv` pair returned by `encrypt`. -/
structure EncryptedAndIv where
  encrypted : Encrypted
  iv : Iv
deriving DecidableEq, Repr

/-- The one variant of `EncryptionError` in the source. -/
inductive EncryptionError
  | GenericEncryptionError
deriving DecidableEq, Repr

/-- Modelled from the spec: the external primitive's encrypt entry point as
a fallible call (it is not documented to fail for well-formed inputs, so the
model always succeeds; the source still matches on its `Result`). -/
def aeadSeal (k n p : List Nat) : Option (List Nat) := some (gcmSeal k n p)

/-- `encrypt`: generate one fresh nonce, seal the plaintext's UTF-8 bytes
under key and nonce, and return ciphertext and nonce (plus the advanced
random cursor of the modelled random source). -/
def encrypt (r : Nat → Nat) (pos : Nat) (key : Key) (decrypted : Decrypted) :
    Except EncryptionError EncryptedAndIv × Nat :=
  match aeadSeal key.u8_array (Iv.generate r pos).1.u8_array
      (utf8Encode decrypted.value) with
  | some ciphertext =>
      (.ok ⟨⟨ciphertext⟩, (Iv.generate r pos).1⟩, (Iv.generate r pos).2)
  | none => (.error .GenericEncryptionError, (Iv.generate r pos).2)

/-- The two variants of `DecryptionError` in the source. -/
inductive DecryptionError
  | InvalidUTF8DecryptionError
  | GenericDecryptionError
deriving DecidableEq, Repr

/-- `decrypt`: open the ciphertext under key and nonce; authentication
failure is the generic error, then the recovered bytes must be valid UTF-8. -/
def decrypt (key : Key) (encrypted_and_iv : EncryptedAndIv) :
    Except DecryptionError (List Nat) :=
  match gcmOpen key.u8_array encrypted_and_iv.iv.u8_array
      encrypted_and_iv.encrypted.u8_vec with
  | some decrypted_u8_vec =>
      match utf8Decode decrypted_u8_vec with
      | some decrypted_string => .ok decrypted_string
      | none => .error .InvalidUTF8DecryptionError
  | none => .error .GenericDecryptionError

/-- The base64 key text of the repository's tests
(`"MDEyMzQ1Njc4OTAxMjM0NTY3ODkwMTIzNDU2Nzg5MDE="`), as character codes. -/
def demoKeyText : List Nat :=
  [77, 68, 69, 121, 77, 122, 81, 49, 78, 106, 99, 52, 79, 84, 65, 120,
   77, 106, 77, 48, 78, 84, 89, 51, 79, 68, 107, 119, 77, 84, 73, 122,
   78, 68, 85, 50, 78, 122, 103, 53, 77, 68, 69, 61]

/-- The decoded key bytes: the ASCII digits of
`"01234567890123456789012345678901"`. -/
def demoKeyBytes : List Nat :=
  [48, 49, 50, 51, 52, 53, 54, 55, 56, 57, 48, 49, 50, 51, 52, 53,
   54, 55, 56, 57, 48, 49, 50, 51, 52, 53, 54, 55, 56, 57, 48, 49]

/-- The tests' key value. -/
def demoKey : Key := ⟨demoKeyBytes⟩

/-- The scalar values of the tests' plaintext `"This is a text."`. -/
def demoPlaintext : List Nat :=
  [84, 104, 105, 115, 32, 105, 115, 32, 97, 32, 116, 101, 120, 116, 46]

/-- A concrete byte oracle standing in for the process random source in
closed instances. -/
def demoRandom : Nat → Nat := fun j => j * 37 + 5

/-- The tests' nonce text `"MDEyMzQ1Njc4OTAx"`, as character codes. -/
def demoIvText : List Nat :=
  [77, 68, 69, 121, 77, 122, 81, 49, 78, 106, 99, 52, 79, 84, 65, 120]

/-- The decoded nonce bytes `"012345678901"`. -/
def demoIvBytes : List Nat :=
  [48, 49, 50, 51, 52, 53, 54, 55, 56, 57, 48, 49]

theorem sextetOfChar_charOfSextet {s : Nat} (hs : s < 64) :
    sextetOfChar (charOfSextet s) = some s := by
  unfold charOfSextet sextetOfChar
  split_ifs <;> simp_all <;> omega

theorem charOfSextet_ne_pad {s : Nat} (hs : s < 64) : charOfSextet s ≠ 61 := by
  unfold charOfSextet
  split_ifs <;> omega

theorem sextetOfChar_lt {c s : Nat} (h : sextetOfChar c = some s) : s < 64 := by
  unfold sextetOfChar at h
  split_ifs at h <;> simp_all <;> omega

theorem charOfSextet_sextetOfChar {c s : Nat} (h : sextetOfChar c = some s) :
    charOfSextet s = c := by
  unfold sextetOfChar at h
  split_ifs at h <;> simp_all <;> unfold charOfSextet <;> split_ifs <;> omega

/-- Decoding inverts encoding on arbitrary byte lists. -/
theorem base64Decode_encode :
    ∀ (b : List Nat), (∀ x ∈ b, x < 256) →
      base64Decode (base64Encode b) = some b
  | [], _ => rfl
  | [b0], h => by
      have h0 : b0 < 256 := h b0 (by simp)
      have e0 := sextetOfChar_charOfSextet (s := b0 / 4) (by omega)
      have e1 := sextetOfChar_charOfSextet (s := b0 % 4 * 16) (by omega)
      have hmod : b0 % 4 * 16 % 16 = 0 := by omega
      simp [base64Encode, base64Decode, e0, e1, hmod]
      omega
  | [b0, b1], h => by
      have h0 : b0 < 256 := h b0 (by simp)
      have h1 : b1 < 256 := h b1 (by simp)
      have e0 := sextetOfChar_charOfSextet (s := b0 / 4) (by omega)
      have e1 := sextetOfChar_charOfSextet (s := b0 % 4 * 16 + b1 / 16) (by omega)
      have e2 := sextetOfChar_charOfSextet (s := b1 % 16 * 4) (by omega)
      have ne2 := charOfSextet_ne_pad (s := b1 % 16 * 4) (by omega)
      have hmod : b1 % 16 * 4 % 4 = 0 := by omega
      have r0 : b0 / 4 * 4 + (b0 % 4 * 16 + b1 / 16) / 16 = b0 := by omega
      have r1 : (b0 % 4 * 16 + b1 / 16) % 16 * 16 + b1 % 16 * 4 / 4 = b1 := by
        omega
      simp only [base64Encode, base64Decode, e0, e1, e2]
      rw [if_neg ne2]
      simp [hmod, r0]
      omega
  | b0 :: b1 :: b2 :: rest, h => by
      have h0 : b0 < 256 := h b0 (by simp)
      have h1 : b1 < 256 := h b1 (by simp)
      have h2 : b2 < 256 := h b2 (by simp)
      have ih := base64Decode_encode rest (fun x hx => h x (by simp [hx]))
      have e0 := sextetOfChar_charOfSextet (s := b0 / 4) (by omega)
      have e1 := sextetOfChar_charOfSextet (s := b0 % 4 * 16 + b1 / 16) (by omega)
      have e2 := sextetOfChar_charOfSextet (s := b1 % 16 * 4 + b2 / 64) (by omega)
      have e3 := sextetOfChar_charOfSextet (s := b2 % 64) (by omega)
      have ne2 := charOfSextet_ne_pad (s := b1 % 16 * 4 + b2 / 64) (by omega)
      have ne3 := charOfSextet_ne_pad (s := b2 % 64) (by omega)
      have r0 : b0 / 4 * 4 + (b0 % 4 * 16 + b1 / 16) / 16 = b0 := by omega
      have r1 : (b0 % 4 * 16 + b1 / 16) % 16 * 16 + (b1 % 16 * 4 + b2 / 64) / 4
          = b1 := by omega
      have r2 : (b1 % 16 * 4 + b2 / 64) % 4 * 64 + b2 % 64 = b2 := by omega
      simp only [base64Encode, base64Decode, e0, e1, e2, e3]
      rw [if_neg ne2, if_neg ne3]
      simp [ih, r0, r1, r2]

/-- Encoding inverts decoding whenever the decoded length is a multiple of
three (then the text had no padding and no partial final quantum, so it is
forced to be canonical). -/
theorem base64Encode_decode :
    ∀ (t b : List Nat), base64Decode t = some b → b.length % 3 = 0 →
      base64Encode b = t
  | [], b, h, _ => by
      simp only [base64Decode, Option.some.injEq] at h
      subst h
      rfl
  | [_], b, h, _ => by
      exact absurd h (by simp [base64Decode])
  | [c0, c1], b, h, h3 => by
      cases hc0 : sextetOfChar c0 with
      | none => simp [base64Decode, hc0] at h
      | some s0 =>
        cases hc1 : sextetOfChar c1 with
        | none => simp [base64Decode, hc0, hc1] at h
        | some s1 =>
          simp [base64Decode, hc0, hc1] at h
          rw [← h.2] at h3
          simp at h3
  | [c0, c1, c2], b, h, h3 => by
      cases hc0 : sextetOfChar c0 with
      | none => simp [base64Decode, hc0] at h
      | some s0 =>
        cases hc1 : sextetOfChar c1 with
        | none => simp [base64Decode, hc0, hc1] at h
        | some s1 =>
          cases hc2 : sextetOfChar c2 with
          | none => simp [base64Decode, hc0, hc1, hc2] at h
          | some s2 =>
            simp [base64Decode, hc0, hc1, hc2] at h
            rw [← h.2] at h3
            simp at h3
  | c0 :: c1 :: c2 :: c3 :: rest, b, h, h3 => by
      cases hc0 : sextetOfChar c0 with
      | none => simp [base64Decode, hc0] at h
      | some s0 =>
      cases hc1 : sextetOfChar c1 with
      | none => simp [base64Decode, hc0, hc1] at h
      | some s1 =>
      by_cases h61 : c2 = 61
      · simp [base64Decode, hc0, hc1, h61] at h
        rw [← h.2] at h3
        simp at h3
      · cases hc2 : sextetOfChar c2 with
        | none => simp [base64Decode, hc0, hc1, h61, hc2] at h
        | some s2 =>
        by_cases h61' : c3 = 61
        · simp [base64Decode, hc0, hc1, h61, hc2, h61'] at h
          rw [← h.2] at h3
          simp at h3
        · cases hc3 : sextetOfChar c3 with
          | none => simp [base64Decode, hc0, hc1, h61, hc2, h61', hc3] at h
          | some s3 =>
          cases hrest : base64Decode rest with
          | none =>
              simp [base64Decode, hc0, hc1, h61, hc2, h61', hc3, hrest] at h
          | some tail =>
          simp only [base64Decode, hc0, hc1, hc2, hc3, hrest, if_neg h61,
            if_neg h61', Option.some.injEq] at h
          have htail : tail.length % 3 = 0 := by
            rw [← h] at h3
            simp at h3
            omega
          have ih := base64Encode_decode rest tail hrest htail
          rw [← h]
          simp only [base64Encode, ih]
          have a0 : (s0 * 4 + s1 / 16) / 4 = s0 := by
            have := sextetOfChar_lt hc1
            omega
          have a1 : (s0 * 4 + s1 / 16) % 4 * 16 + (s1 % 16 * 16 + s2 / 4) / 16
              = s1 := by
            have := sextetOfChar_lt hc2
            omega
          have a2 : (s1 % 16 * 16 + s2 / 4) % 16 * 4 + (s2 % 4 * 64 + s3) / 64
              = s2 := by
            have := sextetOfChar_lt hc3
            omega
          have a3 : (s2 % 4 * 64 + s3) % 64 = s3 := by
            have := sextetOfChar_lt hc3
            omega
          rw [a0, a1, a2, a3, charOfSextet_sextetOfChar hc0,
            charOfSextet_sextetOfChar hc1, charOfSextet_sextetOfChar hc2,
            charOfSextet_sextetOfChar hc3]

theorem utf8DecodeStep_length {b c : Nat} {rest rem : List Nat}
    (h : utf8DecodeStep b rest = some (c, rem)) : rem.length ≤ rest.length := by
  rcases rest with _ | ⟨b1, _ | ⟨b2, _ | ⟨b3, t⟩⟩⟩ <;>
    simp only [utf8DecodeStep] at h <;>
    split_ifs at h <;>
    simp only [Option.some.injEq, Prod.mk.injEq] at h <;>
    rw [← h.2] <;>
    simp <;>
    omega

theorem utf8DecodeFuel_stable :
    ∀ (f1 f2 : Nat) (l : List Nat), l.length ≤ f1 → l.length ≤ f2 →
      utf8DecodeFuel f1 l = utf8DecodeFuel f2 l
  | _, _, [], _, _ => by simp only [utf8DecodeFuel]
  | 0, _, _ :: _, hf1, _ => absurd hf1 (by simp)
  | _ + 1, 0, _ :: _, _, hf2 => absurd hf2 (by simp)
  | f1 + 1, f2 + 1, b :: rest, hf1, hf2 => by
      simp only [utf8DecodeFuel]
      cases hstep : utf8DecodeStep b rest with
      | none => rfl
      | some p =>
          rcases p with ⟨c, rem⟩
          dsimp only
          have hlen := utf8DecodeStep_length hstep
          have hr1 : rem.length ≤ f1 := by
            simp only [List.length_cons] at hf1
            omega
          have hr2 : rem.length ≤ f2 := by
            simp only [List.length_cons] at hf2
            omega
          rw [utf8DecodeFuel_stable f1 f2 rem hr1 hr2]

theorem utf8Decode_cons (b : Nat) (rest : List Nat) :
    utf8Decode (b :: rest) =
      match utf8DecodeStep b rest with
      | some (c, rem) => (utf8Decode rem).map (fun s => c :: s)
      | none => none := by
  simp only [utf8Decode, List.length_cons, utf8DecodeFuel]
  cases hstep : utf8DecodeStep b rest with
  | none => rfl
  | some p =>
      rcases p with ⟨c, rem⟩
      dsimp only
      have hlen := utf8DecodeStep_length hstep
      rw [utf8DecodeFuel_stable rest.length rem.length rem hlen (by simp)]

theorem utf8Decode_encodeChar_append {c : Nat} (hc : ScalarValue c)
    (rest : List Nat) :
    utf8Decode (utf8EncodeChar c ++ rest) =
      (utf8Decode rest).map (fun s => c :: s) := by
  obtain ⟨hlt, hsur⟩ := hc
  unfold utf8EncodeChar
  by_cases h1 : c < 128
  · rw [if_pos h1]
    have hstep : utf8DecodeStep c rest = some (c, rest) := by
      unfold utf8DecodeStep
      rw [if_pos h1]
    rw [List.cons_append, List.nil_append, utf8Decode_cons, hstep]
  · rw [if_neg h1]
    by_cases h2 : c < 2048
    · rw [if_pos h2]
      have hstep : utf8DecodeStep (192 + c / 64) ((128 + c % 64) :: rest) =
          some (c, rest) := by
        unfold utf8DecodeStep
        rw [if_neg (by omega), if_neg (by omega), if_pos (by omega)]
        dsimp only
        rw [if_pos (by omega)]
        have : (192 + c / 64 - 192) * 64 + (128 + c % 64 - 128) = c := by omega
        rw [this]
      simp only [List.cons_append, List.nil_append]
      rw [utf8Decode_cons, hstep]
    · rw [if_neg h2]
      by_cases h3 : c < 65536
      · rw [if_pos h3]
        have hstep : utf8DecodeStep (224 + c / 4096)
            ((128 + c / 64 % 64) :: (128 + c % 64) :: rest) = some (c, rest) := by
          unfold utf8DecodeStep
          rw [if_neg (by omega), if_neg (by omega), if_neg (by omega),
            if_pos (by omega)]
          dsimp only
          rw [if_pos (by omega)]
          have : (224 + c / 4096 - 224) * 4096 + (128 + c / 64 % 64 - 128) * 64 +
              (128 + c % 64 - 128) = c := by omega
          rw [this]
        simp only [List.cons_append, List.nil_append]
        rw [utf8Decode_cons, hstep]
      · rw [if_neg h3]
        have hstep : utf8DecodeStep (240 + c / 262144)
            ((128 + c / 4096 % 64) :: (128 + c / 64 % 64) :: (128 + c % 64) ::
              rest) = some (c, rest) := by
          unfold utf8DecodeStep
          rw [if_neg (by omega), if_neg (by omega), if_neg (by omega),
            if_neg (by omega), if_pos (by omega)]
          dsimp only
          rw [if_pos (by omega)]
          have : (240 + c / 262144 - 240) * 262144 +
              (128 + c / 4096 % 64 - 128) * 4096 + (128 + c / 64 % 64 - 128) * 64
              + (128 + c % 64 - 128) = c := by omega
          rw [this]
        simp only [List.cons_append, List.nil_append]
        rw [utf8Decode_cons, hstep]

/-- Decoding inverts encoding on strings of scalar values. -/
theorem utf8Decode_encode {s : List Nat} (hs : ∀ c ∈ s, ScalarValue c) :
    utf8Decode (utf8Encode s) = some s := by
  induction s with
  | nil => rfl
  | cons c rest ih =>
      simp only [utf8Encode]
      rw [utf8Decode_encodeChar_append (hs c (by simp)) (utf8Encode rest),
        ih (fun x hx => hs x (by simp [hx]))]
      rfl

/-- Encoding is injective on strings of scalar values. -/
theorem utf8Encode_injective {s s' : List Nat} (hs : ∀ c ∈ s, ScalarValue c)
    (hs' : ∀ c ∈ s', ScalarValue c) (h : utf8Encode s = utf8Encode s') :
    s = s' := by
  have h1 := utf8Decode_encode hs
  have h2 := utf8Decode_encode hs'
  rw [h, h2] at h1
  exact (Option.some_inj.mp h1).symm

theorem xorKs_length (k n : List Nat) :
    ∀ (i : Nat) (p : List Nat), (xorKs k n i p).length = p.length
  | _, [] => rfl
  | i, _ :: rest => by
      simp only [xorKs, List.length_cons, xorKs_length k n (i + 1) rest]

theorem xorKs_xorKs (k n : List Nat) :
    ∀ (i : Nat) (p : List Nat), xorKs k n i (xorKs k n i p) = p
  | _, [] => rfl
  | i, b :: rest => by
      simp only [xorKs, xorKs_xorKs k n (i + 1) rest,
        Nat.xor_cancel_right (keystreamByte k n i) b]

theorem xorKs_inj {k n : List Nat} {i : Nat} {p p' : List Nat}
    (h : xorKs k n i p = xorKs k n i p') : p = p' := by
  have := congrArg (xorKs k n i) h
  rwa [xorKs_xorKs, xorKs_xorKs] at this

theorem tagBytes_length (k n body : List Nat) (hn : n.length = 12) :
    (tagBytes k n body).length = 16 := by
  simp [tagBytes, hn]

theorem gcmSeal_length (k n p : List Nat) (hn : n.length = 12) :
    (gcmSeal k n p).length = p.length + 16 := by
  simp [gcmSeal, xorKs_length, tagBytes_length k n _ hn]

/-- Opening inverts sealing under the same key and 12-byte nonce. -/
theorem gcmOpen_gcmSeal (k n p : List Nat) (hn : n.length = 12) :
    gcmOpen k n (gcmSeal k n p) = some p := by
  have hlen := gcmSeal_length k n p hn
  have hB : (gcmSeal k n p).length - 16 = (xorKs k n 0 p).length := by
    rw [hlen, xorKs_length]
    omega
  unfold gcmOpen
  rw [if_neg (by omega), hB]
  show (if (xorKs k n 0 p ++ tagBytes k n (xorKs k n 0 p)).drop
      (xorKs k n 0 p).length = tagBytes k n ((xorKs k n 0 p ++
        tagBytes k n (xorKs k n 0 p)).take (xorKs k n 0 p).length) then
    some (xorKs k n 0 ((xorKs k n 0 p ++ tagBytes k n (xorKs k n 0 p)).take
      (xorKs k n 0 p).length)) else none) = some p
  rw [List.take_left, List.drop_left, if_pos rfl, xorKs_xorKs]

/-- Sealing is injective in the nonce and the plaintext (for 12-byte
nonces): in the model the tag pins down the nonce, and the keystream mask is
invertible. -/
theorem gcmSeal_inj {k n n' p p' : List Nat} (hn : n.length = 12)
    (hn' : n'.length = 12) (hne : n ≠ n' ∨ p ≠ p') :
    gcmSeal k n p ≠ gcmSeal k n' p' := by
  intro hEq
  have hl : p.length = p'.length := by
    have hc := congrArg List.length hEq
    rw [gcmSeal_length k n p hn, gcmSeal_length k n' p' hn'] at hc
    omega
  have hB : (xorKs k n 0 p).length = (xorKs k n' 0 p').length := by
    rw [xorKs_length, xorKs_length, hl]
  unfold gcmSeal at hEq
  obtain ⟨hbody, htag⟩ := List.append_inj hEq hB
  unfold tagBytes at htag
  obtain ⟨hnn, -⟩ := List.append_inj htag (by rw [hn, hn'])
  subst hnn
  have hpp := xorKs_inj hbody
  rcases hne with hne | hne
  · exact hne rfl
  · exact hne hpp

theorem Iv_generate_length (r : Nat → Nat) (pos : Nat) :
    (Iv.generate r pos).1.u8_array.length = 12 := by
  simp [Iv.generate]

/-- Claim C1: for every UTF-8 string `s` and every valid 32-byte key `k`,
encrypting `s` under `k` with `encrypt` and passing the resulting
(ciphertext, nonce) pair unchanged to `decrypt` under the same key returns
`Ok s`, recovering the original string exactly. -/
theorem C1_encrypt_decrypt_iso (k : Key) (s : List Nat) (r : Nat → Nat)
    (pos : Nat) (hk : k.u8_array.length = 32) (hs : ∀ c ∈ s, ScalarValue c) :
    ∃ (eiv : EncryptedAndIv) (posAfter : Nat),
      encrypt r pos k ⟨s⟩ = (.ok eiv, posAfter) ∧ decrypt k eiv = .ok s := by
  refine ⟨⟨⟨gcmSeal k.u8_array (Iv.generate r pos).1.u8_array
    (utf8Encode s)⟩, (Iv.generate r pos).1⟩, (Iv.generate r pos).2, rfl, ?_⟩
  simp only [decrypt,
    gcmOpen_gcmSeal k.u8_array (Iv.generate r pos).1.u8_array (utf8Encode s)
      (Iv_generate_length r pos),
    utf8Decode_encode hs]

/-- Witness for C1 at a concrete key, plaintext and random source. -/
theorem C1_encrypt_decrypt_iso_witness :
    ∃ (eiv : EncryptedAndIv) (posAfter : Nat),
      encrypt demoRandom 0 ⟨List.replicate 32 0⟩ ⟨[72, 105]⟩ =
        (.ok eiv, posAfter) ∧
      decrypt ⟨List.replicate 32 0⟩ eiv = .ok [72, 105] :=
  C1_encrypt_decrypt_iso ⟨List.replicate 32 0⟩ [72, 105] demoRandom 0
    (by decide) (by decide)

set_option maxRecDepth 8192 in
/-- Claim C2: with the key decoded from the 32-ASCII-digit string and
plaintext `"This is a text."`, `encrypt` followed by `decrypt` with the same
key recovers the plaintext exactly; the base64 nonce is 16 characters long,
and the base64 ciphertext decodes to plaintext byte length + 16 bytes. -/
theorem C2_concrete_scenario :
    ∃ eiv : EncryptedAndIv,
      Key.tryFrom demoKeyText = .ok demoKey ∧
      encrypt demoRandom 0 demoKey ⟨demoPlaintext⟩ = (.ok eiv, 12) ∧
      decrypt demoKey eiv = .ok demoPlaintext ∧
      (Iv.toBase64 eiv.iv).length = 16 ∧
      base64Decode (Encrypted.toBase64 eiv.encrypted) =
        some eiv.encrypted.u8_vec ∧
      eiv.encrypted.u8_vec.length = demoPlaintext.length + 16 := by
  refine ⟨_, by decide, rfl, ?_, ?_, ?_, ?_⟩ <;> decide

/-- Claim C3: Key and Nonce construction from base64 text validates in two
stages in this order — malformed base64 yields the base64 error; a decoded
length other than 32 (key) or 12 (nonce) yields the size error; the correct
length succeeds with the decoded bytes preserved exactly. -/
theorem C3_key_iv_two_stage (t : List Nat) :
    (base64Decode t = none →
      Key.tryFrom t = .error .InvalidKeyBase64Error ∧
      Iv.tryFrom t = .error .InvalidIvBase64Error) ∧
    (∀ d : List Nat, base64Decode t = some d →
      Key.tryFrom t = (if d.length = 32 then .ok ⟨d⟩
        else .error .InvalidKeySizeError) ∧
      Iv.tryFrom t = (if d.length = 12 then .ok ⟨d⟩
        else .error .InvalidIvSizeError)) := by
  constructor
  · intro h
    constructor <;> simp [Key.tryFrom, Iv.tryFrom, h]
  · intro d hd
    constructor <;> simp [Key.tryFrom, Iv.tryFrom, hd]

/-- Witness for C3: malformed base64 (`"012"`), well-formed base64 of the
wrong decoded size (`"MDEy"`, 3 bytes), and well-formed base64 of the right
size, for both Key and Iv. -/
theorem C3_key_iv_two_stage_witness :
    Key.tryFrom [48, 49, 50] = .error .InvalidKeyBase64Error ∧
    Iv.tryFrom [48, 49, 50] = .error .InvalidIvBase64Error ∧
    Key.tryFrom [77, 68, 69, 121] = .error .InvalidKeySizeError ∧
    Iv.tryFrom [77, 68, 69, 121] = .error .InvalidIvSizeError ∧
    Key.tryFrom demoKeyText = .ok ⟨demoKeyBytes⟩ ∧
    Iv.tryFrom demoIvText = .ok ⟨demoIvBytes⟩ :=
  ⟨((C3_key_iv_two_stage [48, 49, 50]).1 (by decide)).1,
   ((C3_key_iv_two_stage [48, 49, 50]).1 (by decide)).2,
   (((C3_key_iv_two_stage [77, 68, 69, 121]).2 [48, 49, 50]
     (by decide)).1).trans (by decide),
   (((C3_key_iv_two_stage [77, 68, 69, 121]).2 [48, 49, 50]
     (by decide)).2).trans (by decide),
   (((C3_key_iv_two_stage demoKeyText).2 demoKeyBytes
     (by decide)).1).trans (by decide),
   (((C3_key_iv_two_stage demoIvText).2 demoIvBytes
     (by decide)).2).trans (by decide)⟩

/-- Claim C4: `decrypt` returns the generic error exactly when AEAD
verification fails; after successful verification, invalid UTF-8 yields the
UTF-8 error (never the generic one) and valid UTF-8 yields the recovered
string; in particular a ciphertext sealing the non-UTF-8 bytes
`0x85 0x85` decrypts (matching key and nonce) to the UTF-8 error. -/
theorem C4_decrypt_error_dispatch :
    (∀ (k : Key) (e : Encrypted) (iv : Iv),
      gcmOpen k.u8_array iv.u8_array e.u8_vec = none →
        decrypt k ⟨e, iv⟩ = .error .GenericDecryptionError) ∧
    (∀ (k : Key) (e : Encrypted) (iv : Iv) (p : List Nat),
      gcmOpen k.u8_array iv.u8_array e.u8_vec = some p →
      utf8Decode p = none →
        decrypt k ⟨e, iv⟩ = .error .InvalidUTF8DecryptionError) ∧
    (∀ (k : Key) (e : Encrypted) (iv : Iv) (p str : List Nat),
      gcmOpen k.u8_array iv.u8_array e.u8_vec = some p →
      utf8Decode p = some str →
        decrypt k ⟨e, iv⟩ = .ok str) ∧
    (∀ (k : Key) (iv : Iv), iv.u8_array.length = 12 →
      decrypt k ⟨⟨gcmSeal k.u8_array iv.u8_array [133, 133]⟩, iv⟩ =
        .error .InvalidUTF8DecryptionError) := by
  refine ⟨?_, ?_, ?_, ?_⟩
  · intro k e iv h
    simp [decrypt, h]
  · intro k e iv p h hp
    simp [decrypt, h, hp]
  · intro k e iv p str h hp
    simp [decrypt, h, hp]
  · intro k iv hiv
    simp [decrypt, gcmOpen_gcmSeal k.u8_array iv.u8_array [133, 133] hiv,
      (by decide : utf8Decode [133, 133] = none)]

/-- Witness for C4: the four branches at concrete keys, nonces and
ciphertexts. -/
theorem C4_decrypt_error_dispatch_witness :
    decrypt ⟨List.replicate 32 0⟩ ⟨⟨[]⟩, ⟨List.replicate 12 0⟩⟩ =
      .error .GenericDecryptionError ∧
    decrypt ⟨List.replicate 32 0⟩
      ⟨⟨gcmSeal (List.replicate 32 0) (List.replicate 12 0) [133, 133]⟩,
        ⟨List.replicate 12 0⟩⟩ = .error .InvalidUTF8DecryptionError ∧
    decrypt ⟨List.replicate 32 0⟩
      ⟨⟨gcmSeal (List.replicate 32 0) (List.replicate 12 0) [72]⟩,
        ⟨List.replicate 12 0⟩⟩ = .ok [72] ∧
    decrypt ⟨List.replicate 32 0⟩
      ⟨⟨gcmSeal (List.replicate 32 0) (List.replicate 12 0) [133, 133]⟩,
        ⟨List.replicate 12 0⟩⟩ = .error .InvalidUTF8DecryptionError :=
  ⟨C4_decrypt_error_dispatch.1 ⟨List.replicate 32 0⟩ ⟨[]⟩
     ⟨List.replicate 12 0⟩ (by decide),
   C4_decrypt_error_dispatch.2.1 ⟨List.replicate 32 0⟩
     ⟨gcmSeal (List.replicate 32 0) (List.replicate 12 0) [133, 133]⟩
     ⟨List.replicate 12 0⟩ [133, 133] (by decide) (by decide),
   C4_decrypt_error_dispatch.2.2.1 ⟨List.replicate 32 0⟩
     ⟨gcmSeal (List.replicate 32 0) (List.replicate 12 0) [72]⟩
     ⟨List.replicate 12 0⟩ [72] [72] (by decide) (by decide),
   C4_decrypt_error_dispatch.2.2.2 ⟨List.replicate 32 0⟩
     ⟨List.replicate 12 0⟩ (by decide)⟩

/-- Claim C5: base64 encoding inverts fixed-size decoding — every 12-byte
buffer round-trips through `Iv`, every 32-byte buffer through `Key` — and
rendering an `Iv` built from valid base64 text back to base64 returns the
original text. -/
theorem C5_codec_roundtrips :
    (∀ b : List Nat, b.length = 12 → (∀ x ∈ b, x < 256) →
      Iv.tryFrom (base64Encode b) = .ok ⟨b⟩) ∧
    (∀ b : List Nat, b.length = 32 → (∀ x ∈ b, x < 256) →
      Key.tryFrom (base64Encode b) = .ok ⟨b⟩) ∧
    (∀ (t : List Nat) (iv : Iv), Iv.tryFrom t = .ok iv →
      Iv.toBase64 iv = t) := by
  refine ⟨?_, ?_, ?_⟩
  · intro b hlen hb
    simp [Iv.tryFrom, base64Decode_encode b hb, hlen]
  · intro b hlen hb
    simp [Key.tryFrom, base64Decode_encode b hb, hlen]
  · intro t iv h
    cases hd : base64Decode t with
    | none => simp [Iv.tryFrom, hd] at h
    | some d =>
        by_cases hlen : d.length = 12
        · simp only [Iv.tryFrom, hd, if_pos hlen, Except.ok.injEq] at h
          rw [← h]
          exact base64Encode_decode t d hd (by rw [hlen])
        · simp [Iv.tryFrom, hd, hlen] at h

/-- Witness for C5 at a concrete 12-byte buffer, 32-byte buffer and nonce
text. -/
theorem C5_codec_roundtrips_witness :
    Iv.tryFrom (base64Encode (List.replicate 12 7)) =
      .ok ⟨List.replicate 12 7⟩ ∧
    Key.tryFrom (base64Encode (List.replicate 32 9)) =
      .ok ⟨List.replicate 32 9⟩ ∧
    Iv.toBase64 ⟨demoIvBytes⟩ = demoIvText :=
  ⟨C5_codec_roundtrips.1 (List.replicate 12 7) (by decide) (by decide),
   C5_codec_roundtrips.2.1 (List.replicate 32 9) (by decide) (by decide),
   C5_codec_roundtrips.2.2 demoIvText ⟨demoIvBytes⟩ (by decide)⟩

/-- Claim C6: every `encrypt` call generates exactly one fresh 12-byte nonce
(the random cursor advances by exactly 12 and no nonce argument exists); the
ciphertext equals the AEAD seal of the key, that nonce and the plaintext's
UTF-8 bytes; the returned nonce is the one sealed with; and the ciphertext
carries the appended 16-byte tag, so its length is plaintext byte length
+ 16. -/
theorem C6_encrypt_structure (r : Nat → Nat) (pos : Nat) (k : Key)
    (s : List Nat) :
    encrypt r pos k ⟨s⟩ =
      (.ok ⟨⟨gcmSeal k.u8_array (Iv.generate r pos).1.u8_array
        (utf8Encode s)⟩, (Iv.generate r pos).1⟩, pos + 12) ∧
    (Iv.generate r pos).1.u8_array.length = 12 ∧
    (gcmSeal k.u8_array (Iv.generate r pos).1.u8_array (utf8Encode s)).length
      = (utf8Encode s).length + 16 :=
  ⟨rfl, Iv_generate_length r pos,
    gcmSeal_length k.u8_array (Iv.generate r pos).1.u8_array (utf8Encode s)
      (Iv_generate_length r pos)⟩

/-- Claim C7: `Encrypted` construction from base64 text imposes no size
constraint — it succeeds for every valid base64 input of any decoded length
(including zero bytes), fails only with the base64 decoding error, and
renders back to the base64 encoding of its bytes. -/
theorem C7_encrypted_no_size_constraint :
    (∀ (t d : List Nat), base64Decode t = some d →
      Encrypted.tryFrom t = .ok ⟨d⟩ ∧
      Encrypted.toBase64 ⟨d⟩ = base64Encode d) ∧
    (∀ t : List Nat, base64Decode t = none →
      Encrypted.tryFrom t = .error .DecodeError) := by
  constructor
  · intro t d hd
    exact ⟨by simp [Encrypted.tryFrom, hd], rfl⟩
  · intro t ht
    simp [Encrypted.tryFrom, ht]

/-- Witness for C7: the empty text (zero decoded bytes), the tests' valid
ciphertext text `"YWFhYWFhYQ=="` (7 bytes), and the tests' malformed text
`"aaaaaaa"`. -/
theorem C7_encrypted_no_size_constraint_witness :
    Encrypted.tryFrom [] = .ok ⟨[]⟩ ∧
    Encrypted.tryFrom [89, 87, 70, 104, 89, 87, 70, 104, 89, 81, 61, 61] =
      .ok ⟨[97, 97, 97, 97, 97, 97, 97]⟩ ∧
    Encrypted.tryFrom [97, 97, 97, 97, 97, 97, 97] =
      .error .DecodeError :=
  ⟨(C7_encrypted_no_size_constraint.1 [] [] (by decide)).1,
   (C7_encrypted_no_size_constraint.1
     [89, 87, 70, 104, 89, 87, 70, 104, 89, 81, 61, 61]
     [97, 97, 97, 97, 97, 97, 97] (by decide)).1,
   C7_encrypted_no_size_constraint.2 [97, 97, 97, 97, 97, 97, 97]
     (by decide)⟩

/-- Claim C8: two successive `Iv.generate` calls produce different values
(whenever the random source's two 12-byte draws differ somewhere, the
deterministic rendering of "with overwhelming probability"), and two
`encrypt` calls under the same key produce different ciphertext bytes when
their generated nonces differ or their plaintexts differ. -/
theorem C8_nonce_and_ciphertext_distinct :
    (∀ (r : Nat → Nat) (pos : Nat),
      (∃ j, j < 12 ∧ r (pos + j) % 256 ≠ r (pos + 12 + j) % 256) →
      (Iv.generate r pos).1 ≠ (Iv.generate r (Iv.generate r pos).2).1) ∧
    (∀ (r rOther : Nat → Nat) (pos posOther : Nat) (k : Key)
      (s sOther : List Nat) (e1 e2 : Encrypted) (i1 i2 : Iv) (q1 q2 : Nat),
      (∀ c ∈ s, ScalarValue c) → (∀ c ∈ sOther, ScalarValue c) →
      ((Iv.generate r pos).1 ≠ (Iv.generate rOther posOther).1 ∨ s ≠ sOther) →
      encrypt r pos k ⟨s⟩ = (.ok ⟨e1, i1⟩, q1) →
      encrypt rOther posOther k ⟨sOther⟩ = (.ok ⟨e2, i2⟩, q2) →
      e1.u8_vec ≠ e2.u8_vec) := by
  constructor
  · rintro r pos ⟨j, hj, hne⟩ hEq
    apply hne
    have harr := congrArg Iv.u8_array hEq
    simp only [Iv.generate] at harr
    have hj' := congrArg (fun l => l.get? j) harr
    simp only [List.get?_map, List.get?_range hj] at hj'
    simp at hj'
    exact hj'
  · intro r rOther pos posOther k s sOther e1 e2 i1 i2 q1 q2 hs hsOther hne
      hE1 hE2
    simp only [encrypt, aeadSeal, Prod.mk.injEq, Except.ok.injEq,
      EncryptedAndIv.mk.injEq, Encrypted.mk.injEq] at hE1 hE2
    rw [← hE1.1.1, ← hE2.1.1]
    apply gcmSeal_inj (Iv_generate_length r pos)
      (Iv_generate_length rOther posOther)
    rcases hne with hne | hne
    · exact Or.inl (fun harr => hne (congrArg Iv.mk harr))
    · exact Or.inr (fun henc => hne (utf8Encode_injective hs hsOther henc))

/-- Witness for C8: the identity byte oracle gives two distinct successive
nonces, and two concrete `encrypt` calls at distinct cursors give distinct
ciphertexts. -/
theorem C8_nonce_and_ciphertext_distinct_witness :
    (Iv.generate (fun j => j) 0).1 ≠
      (Iv.generate (fun j => j) (Iv.generate (fun j => j) 0).2).1 ∧
    Encrypted.u8_vec ⟨gcmSeal (List.replicate 32 0)
        (Iv.generate (fun j => j) 0).1.u8_array (utf8Encode [72])⟩ ≠
      Encrypted.u8_vec ⟨gcmSeal (List.replicate 32 0)
        (Iv.generate (fun j => j) 100).1.u8_array (utf8Encode [72])⟩ :=
  ⟨C8_nonce_and_ciphertext_distinct.1 (fun j => j) 0
     ⟨0, by decide, by decide⟩,
   C8_nonce_and_ciphertext_distinct.2 (fun j => j) (fun j => j) 0 100
     ⟨List.replicate 32 0⟩ [72] [72]
     ⟨gcmSeal (List.replicate 32 0)
       (Iv.generate (fun j => j) 0).1.u8_array (utf8Encode [72])⟩
     ⟨gcmSeal (List.replicate 32 0)
       (Iv.generate (fun j => j) 100).1.u8_array (utf8Encode [72])⟩
     (Iv.generate (fun j => j) 0).1 (Iv.generate (fun j => j) 100).1 12 112
     (by decide) (by decide) (Or.inl (by decide)) rfl rfl⟩

/-- Claim C9: every public operation is total over its input domain — the
constructors and both cipher operations always return one of their typed
results, never aborting; every validation or cryptographic failure surfaces
as one of the enumerated error values. -/
theorem C9_total_results :
    (∀ t : List Nat, Key.tryFrom t = .error .InvalidKeyBase64Error ∨
      Key.tryFrom t = .error .InvalidKeySizeError ∨
      ∃ k, Key.tryFrom t = .ok k) ∧
    (∀ t : List Nat, Iv.tryFrom t = .error .InvalidIvBase64Error ∨
      Iv.tryFrom t = .error .InvalidIvSizeError ∨
      ∃ iv, Iv.tryFrom t = .ok iv) ∧
    (∀ t : List Nat, Encrypted.tryFrom t = .error .DecodeError ∨
      ∃ e, Encrypted.tryFrom t = .ok e) ∧
    (∀ (r : Nat → Nat) (pos : Nat) (k : Key) (d : Decrypted),
      (∃ eiv q, encrypt r pos k d = (.ok eiv, q)) ∨
      (∃ q, encrypt r pos k d = (.error .GenericEncryptionError, q))) ∧
    (∀ (k : Key) (eiv : EncryptedAndIv),
      decrypt k eiv = .error .GenericDecryptionError ∨
      decrypt k eiv = .error .InvalidUTF8DecryptionError ∨
      ∃ str, decrypt k eiv = .ok str) := by
  refine ⟨?_, ?_, ?_, ?_, ?_⟩
  · intro t
    cases hd : base64Decode t with
    | none => exact Or.inl (by simp [Key.tryFrom, hd])
    | some d =>
        by_cases hlen : d.length = 32
        · exact Or.inr (Or.inr ⟨⟨d⟩, by simp [Key.tryFrom, hd, hlen]⟩)
        · exact Or.inr (Or.inl (by simp [Key.tryFrom, hd, hlen]))
  · intro t
    cases hd : base64Decode t with
    | none => exact Or.inl (by simp [Iv.tryFrom, hd])
    | some d =>
        by_cases hlen : d.length = 12
        · exact Or.inr (Or.inr ⟨⟨d⟩, by simp [Iv.tryFrom, hd, hlen]⟩)
        · exact Or.inr (Or.inl (by simp [Iv.tryFrom, hd, hlen]))
  · intro t
    cases hd : base64Decode t with
    | none => exact Or.inl (by simp [Encrypted.tryFrom, hd])
    | some d => exact Or.inr ⟨⟨d⟩, by simp [Encrypted.tryFrom, hd]⟩
  · intro r pos k d
    exact Or.inl ⟨⟨⟨gcmSeal k.u8_array (Iv.generate r pos).1.u8_array
      (utf8Encode d.value)⟩, (Iv.generate r pos).1⟩,
      (Iv.generate r pos).2, rfl⟩
  · intro k eiv
    cases ho : gcmOpen k.u8_array eiv.iv.u8_array eiv.encrypted.u8_vec with
    | none => exact Or.inl (by simp [decrypt, ho])
    | some p =>
        cases hu : utf8Decode p with
        | none => exact Or.inr (Or.inl (by simp [decrypt, ho, hu]))
        | some str => exact Or.inr (Or.inr ⟨str, by simp [decrypt, ho, hu]⟩)

/-- Claim C10: Key construction from an owned String returns exactly the
same result as Key construction from the string slice — the source's
`TryFrom<String>` delegates to `TryFrom<&str>` on the full slice. -/
theorem C10_tryFromString_eq_tryFrom (t : List Nat) :
    Key.tryFromString t = Key.tryFrom t := rfl

end SimpleAes256Gcm
